import Mathlib

/-!
# Verification of the Email Discovery Engine (`enhanced_email_scraper.py`)

This file is a shallow embedding, in Lean 4, of the core functions of the
email-discovery engine: URL normalisation (`clean_url`), email validation
(`is_valid_email`), email cleaning (`clean_extracted_emails`), the
validation tail of `extract_emails_from_html`, URL prioritisation
(`get_priority_urls`), the per-domain crawl loop
(`discover_emails_for_domain` / `discover_emails_via_sitemap`), the
per-company worker (`process_single_company_worker`), HTTP fetching
(`fetch_website_content`), and the checkpoint store
(`save_progress_csv` / `find_latest_progress_file`).

Python strings are modelled as `List Char` (`Str`).  Regular-expression
checks from the source are translated, pattern by pattern, into decidable
predicates over `Str`; each translation is documented next to its
definition.  Network and HTML-parsing effects (the `requests` library and
BeautifulSoup) are external collaborators and are modelled as oracle
function parameters; the control flow around them is translated from the
source.
-/

namespace Scraper

/-- Python strings, modelled as lists of characters. -/
abbrev Str := List Char

/-! ## Python string primitives -/

/-- `str.strip()` on the left: drop leading whitespace. -/
def lstrip (s : Str) : Str := s.dropWhile Char.isWhitespace

/-- `str.strip()` on the right: drop trailing whitespace. -/
def rstrip (s : Str) : Str := (s.reverse.dropWhile Char.isWhitespace).reverse

/-- Python `str.strip()` (ASCII whitespace model). -/
def pyStrip (s : Str) : Str := rstrip (lstrip s)

/-- Python `str.lower()` (ASCII model; the engine handles ASCII emails/URLs). -/
def lowerStr (s : Str) : Str := s.map Char.toLower

/-- Python `needle in haystack` substring test. -/
def containsPat (hay pat : Str) : Bool :=
  match hay with
  | [] => decide (pat = [])
  | _ :: t => pat.isPrefixOf hay || containsPat t pat

/-- The remainder of `hay` after the first occurrence of `pat`
(used to translate regexes of the shape `.*A.*B.*`). -/
def afterFirst (hay pat : Str) : Option Str :=
  match hay with
  | [] => if pat = [] then some [] else none
  | _ :: t =>
    if pat.isPrefixOf hay then some (hay.drop pat.length) else afterFirst t pat

/-- Sequential containment: the patterns occur in order, left to right.
Translates `.*P1.*P2.*` under `re.match`. -/
def seqContains (hay : Str) : List Str → Bool
  | [] => true
  | p :: ps =>
    match afterFirst hay p with
    | some r => seqContains r ps
    | none => false

/-- Python `s.split(c)` for a single-character separator. -/
def splitC (c : Char) : Str → List Str
  | [] => [[]]
  | x :: xs =>
    let r := splitC c xs
    if x = c then [] :: r
    else
      match r with
      | h :: t => (x :: h) :: t
      | [] => [[x]]

/-- Length of the maximal run of characters satisfying `p` at the head. -/
def maxLeadRun (p : Char → Bool) : Str → Nat
  | [] => 0
  | c :: t => if p c then maxLeadRun p t + 1 else 0

/-- Whether `s` contains somewhere a run of at least `n` consecutive
characters satisfying `p` (translates `[0-9]{n,}` under `re.search`). -/
def hasRun (p : Char → Bool) (n : Nat) : Str → Bool
  | [] => decide (n = 0)
  | c :: t => decide (n ≤ maxLeadRun p (c :: t)) || hasRun p n t

/-- Whether some suffix of `s` satisfies `p` (scanning tool for regexes
anchored in the middle of the string). -/
def existsSuffix (p : Str → Bool) : Str → Bool
  | [] => p []
  | c :: t => p (c :: t) || existsSuffix p t

/-! ## Character classes used by the source's regexes -/

/-- `[a-z]`. -/
def isLowerAlpha (c : Char) : Bool := 'a' ≤ c && c ≤ 'z'

/-- `[A-Z]`. -/
def isUpperAlpha (c : Char) : Bool := 'A' ≤ c && c ≤ 'Z'

/-- `[a-zA-Z]`. -/
def isAlphaBoth (c : Char) : Bool := isLowerAlpha c || isUpperAlpha c

/-- `[a-zA-Z0-9]`. -/
def isAlnumBoth (c : Char) : Bool := isAlphaBoth c || c.isDigit

/-- `[a-f0-9]` (the hex class of the `uuid`/fake-hex patterns, applied to
already lower-cased input). -/
def isHexLower (c : Char) : Bool := c.isDigit || ('a' ≤ c && c ≤ 'f')

/-- `\w` = `[a-zA-Z0-9_]`, the word class deciding `\b` boundaries. -/
def isWordC (c : Char) : Bool := isAlnumBoth c || c = '_'

/-- The local-part class `[a-zA-Z0-9._%+-]` of the `email_main` pattern. -/
def isMainLocal (c : Char) : Bool :=
  isAlnumBoth c || c = '.' || c = '_' || c = '%' || c = '+' || c = '-'

/-- The domain class `[a-zA-Z0-9.-]` of the `email_main` pattern. -/
def isMainDomain (c : Char) : Bool := isAlnumBoth c || c = '.' || c = '-'

/-! ## `is_valid_email` (source lines 555–695)

The validator receives one email string and returns a `Bool`.  It does
**not** receive the company domain.  Each `if cond: return False` of the
source is translated into a conjunct `!cond`, in source order.  The email
has exactly one `'@'` by the time the local/domain parts are used, which
the regex translations below rely on (noted where used). -/

/-- The local-part alternatives of the `french_business` pattern
`^(?:contact|info|…)@`. -/
def frenchHeads : List Str :=
  ["contact", "info", "commercial", "vente", "ventes", "direction",
   "accueil", "secretariat", "administration", "rh", "ressources-humaines",
   "communication", "marketing", "service-client", "support", "technique",
   "comptabilite", "finance", "juridique"].map String.toList

/-- `COMPILED_PATTERNS['french_business'].match(email)`: the (lower-cased)
email starts with a whitelisted business local part followed by `'@'`. -/
def frenchBusinessB (t : Str) : Bool :=
  frenchHeads.any fun p => (p ++ ['@']).isPrefixOf t

/-- fake pattern `.*@sentry.*\.wix.*`: `"@sentry"` then `".wix"`, in order. -/
def fakeSentryWix (t : Str) : Bool := seqContains t ["@sentry".toList, ".wix".toList]

/-- fake pattern `.*@.*\.wixpress\.com$`: with a unique `'@'`, the domain
part ends with `".wixpress.com"`. -/
def fakeWixpress (d : Str) : Bool := (".wixpress.com".toList).isSuffixOf d

/-- fake pattern `.*@fragel.*\.wix.*`: with a unique `'@'`, the domain part
starts with `"fragel"` and later contains `".wix"`. -/
def fakeFragelWix (d : Str) : Bool :=
  ("fragel".toList).isPrefixOf d && containsPat (d.drop 6) (".wix".toList)

/-- fake pattern `.*@fragel\..*`: the domain part starts with `"fragel."`. -/
def fakeFragelDot (d : Str) : Bool := ("fragel.".toList).isPrefixOf d

/-- fake pattern `^[a-f0-9]{16,}@`: with a unique `'@'`, the whole local
part is hex and has at least 16 characters. -/
def fakeHex16 (l : Str) : Bool := decide (16 ≤ l.length) && l.all isHexLower

/-- fake pattern `^[0-9a-z]{20,}@`: the whole local part is lower-case
alphanumeric with at least 20 characters. -/
def fakeAlnum20 (l : Str) : Bool :=
  decide (20 ≤ l.length) && l.all (fun c => c.isDigit || isLowerAlpha c)

/-- fake pattern `.*[0-9]{10,}.*@`: a run of 10 consecutive digits before
the unique `'@'`, i.e. inside the local part. -/
def fakeDigits10 (l : Str) : Bool := hasRun Char.isDigit 10 l

/-- fake pattern `.*@.*\.com[a-z]+`: the domain part contains `".com"`
immediately followed by a letter. -/
def fakeComGarbage (d : Str) : Bool :=
  existsSuffix (fun s =>
    (".com".toList).isPrefixOf s &&
      (match s.drop 4 with
       | c :: _ => isLowerAlpha c
       | [] => false)) d

/-- fake pattern `.*@.*\.[a-z]{2,}[a-z0-9]+$`: after some dot of the
domain, two letters then at least one alphanumeric character reach the end
of the string.  Since neither class contains `'.'`, the only candidate dot
is the last one: the label after the last dot must have length ≥ 3, start
with two letters and be alphanumeric throughout. -/
def fakeLongTld (d : Str) : Bool :=
  d.contains '.' &&
    (match (splitC '.' d).getLastD [] with
     | a :: b :: rest =>
       isLowerAlpha a && isLowerAlpha b && !rest.isEmpty &&
         rest.all (fun c => isLowerAlpha c || c.isDigit)
     | _ => false)

/-- fake pattern `.*@example\.com$`: the domain part is exactly
`"example.com"`. -/
def fakeExampleCom (d : Str) : Bool := decide (d = "example.com".toList)

/-- fake pattern `.*@test\.`: the domain part starts with `"test."`. -/
def fakeTestDot (d : Str) : Bool := ("test.".toList).isPrefixOf d

/-- fake pattern `.*@localhost`: the domain part starts with
`"localhost"`. -/
def fakeLocalhost (d : Str) : Bool := ("localhost".toList).isPrefixOf d

/-- fake pattern
`.*@.*\.(png|jpg|jpeg|gif|svg|pdf|doc|txt|css|js)$`. -/
def fakeFileExt (d : Str) : Bool :=
  ["png", "jpg", "jpeg", "gif", "svg", "pdf", "doc", "txt", "css", "js"].any
    fun x => (('.' :: x.toList) : Str).isSuffixOf d

/-- fake pattern `^[0-9]+@`: the local part is non-empty and all digits. -/
def fakeAllDigits (l : Str) : Bool := !l.isEmpty && l.all Char.isDigit

/-- The `invalid_domains` set (source lines 615–619). -/
def invalidDomains : List Str :=
  ["sentry.io", "wixpress.com", "sentry-next.wixpress.com", "test.com",
   "localhost", "test.fr", "test.net", "example.com",
   "fragel.wixpress.com", "fragel.io"].map String.toList

/-- The `invalid_tlds` set (source lines 621–624). -/
def invalidTlds : List Str :=
  ["png", "jpg", "jpeg", "gif", "svg", "bmp", "ico", "webp", "pdf", "doc",
   "docx", "txt", "csv", "tmp", "test", "localhost", "internal"].map String.toList

/-- `domain_lower.split('.')[-1] if '.' in domain_lower else ''`. -/
def tldOf (d : Str) : Str :=
  if d.contains '.' then (splitC '.' d).getLastD [] else []

/-- `COMPILED_PATTERNS['ip_address'].search(email)` with pattern
`@[0-9]+\.[0-9]+\.[0-9]+\.[0-9]+$`: with a unique `'@'`, the domain part
splits into exactly four non-empty all-digit groups. -/
def ipAddrSearch (d : Str) : Bool :=
  let ps := splitC '.' d
  decide (ps.length = 4) && ps.all fun p => !p.isEmpty && p.all Char.isDigit

/-- The trailing part of `email_main`'s domain half, after a candidate
dot: `[a-zA-Z]{2,}\b`.  Backtracking must take the whole maximal letter
run (a shorter run would put `\b` between two letters), so the run must
have length ≥ 2 and the next character, when present, must be a non-word
character. -/
def letterBoundary (rest : Str) : Bool :=
  let r := maxLeadRun isAlphaBoth rest
  decide (2 ≤ r) &&
    (match rest.drop r with
     | [] => true
     | c :: _ => !isWordC c)

/-- Scanner for `email_main`'s domain half `[a-zA-Z0-9.-]+\.[a-zA-Z]{2,}\b`
matched against a prefix of the domain part: some dot is preceded by a
non-empty prefix inside the class and followed by a bounded letter run.
`seen` records that at least one class character was consumed. -/
def domScan (seen : Bool) : Str → Bool
  | [] => false
  | c :: rest =>
    (decide (c = '.') && seen && letterBoundary rest) ||
      (isMainDomain c && domScan true rest)

/-- `COMPILED_PATTERNS['email_main'].match(email)` with pattern
`\b[a-zA-Z0-9._%+-]{1,64}@[a-zA-Z0-9.-]+\.[a-zA-Z]{2,}\b` under `re.match`
(prefix match).  The leading `\b` at position 0 requires the first
character to be a word character; with a unique `'@'` the quantifier must
consume exactly the local part. -/
def emailMainMatch (l d : Str) : Bool :=
  (match l with
   | c :: _ => isWordC c
   | [] => false) &&
    decide (1 ≤ l.length) && decide (l.length ≤ 64) &&
    l.all isMainLocal && domScan false d

/-- Number of digit characters in a string
(`sum(c.isdigit() for c in local_part)`). -/
def digitCount (s : Str) : Nat := (s.filter Char.isDigit).length

/-- `is_valid_email` (source lines 555–695) on a `Str`.  Sequential
`if cond: return False` checks are translated as a conjunction of `!cond`
factors, in source order.  The float comparison
`number_count > len(local_part) * 0.6` is modelled exactly by the rational
comparison `5 * number_count > 3 * len(local_part)`: for every length
≤ 64 the double `len * 0.6` rounds to a value whose order against every
integer agrees with `0.6 * len` as a rational. -/
def isValidEmailL (e : Str) : Bool :=
  -- `if not email or not isinstance(email, str): return False`
  if e.isEmpty then false
  else
    -- `email = email.strip().lower()`
    let t := lowerStr (pyStrip e)
    -- `if '@' not in email or email.count('@') != 1: return False`
    if t.count '@' ≠ 1 then false
    else
      -- `local_part, domain = email.split('@', 1)`
      let l := t.takeWhile (· ≠ '@')
      let d := (t.dropWhile (· ≠ '@')).drop 1
      let fb := frenchBusinessB t
      -- the `fake_patterns` loop (lines 575–612)
      !fakeSentryWix t && !fakeWixpress d && !fakeFragelWix d &&
      !fakeFragelDot d &&
      !fakeHex16 l && !fakeAlnum20 l && !fakeDigits10 l &&
      !fakeComGarbage d && !fakeLongTld d &&
      !containsPat t ("noreply".toList) && !containsPat t ("no-reply".toList) &&
      !containsPat t ("ne-pas-repondre".toList) &&
      !fakeExampleCom d && !fakeTestDot d && !fakeLocalhost d &&
      !containsPat t ("mailer-daemon".toList) &&
      !fakeFileExt d && !fakeAllDigits l &&
      -- `if tld in invalid_tlds or domain_lower in invalid_domains` (lines 626–631)
      !(invalidTlds.contains (tldOf d)) && !(invalidDomains.contains d) &&
      -- `if '..' in domain_lower or domain_lower.endswith('.')` (line 635)
      !containsPat d ("..".toList) && !(['.'].isSuffixOf d) &&
      -- `domain_parts = domain_lower.split('.'); if len(domain_parts) < 2` (lines 639–641)
      decide (2 ≤ (splitC '.' d).length) &&
      -- `if domain_parts[-1].isdigit()` (line 644); Python `''.isdigit()` is False
      !(let lp := (splitC '.' d).getLastD []
        !lp.isEmpty && lp.all Char.isDigit) &&
      -- `uuid_32` `^[a-fA-F0-9]{32,}$` / `uuid_long` `^[a-fA-F0-9]{30,}$` (line 648)
      !(decide (32 ≤ l.length) && l.all isHexLower) &&
      !(decide (30 ≤ l.length) && l.all isHexLower) &&
      -- `if not is_french_business:` length, digit-density, IP checks (lines 652–666)
      (fb || (decide (l.length ≤ 30) &&
              !decide (3 * l.length < 5 * digitCount l) &&
              !ipAddrSearch d)) &&
      -- `if not COMPILED_PATTERNS['email_main'].match(email)` (line 669)
      emailMainMatch l d &&
      -- `if len(local_part) > 64 or len(local_part) < 2` (line 673)
      decide (2 ≤ l.length) && decide (l.length ≤ 64) &&
      -- `if len(domain_lower) > 253` (line 676)
      decide (d.length ≤ 253) &&
      -- `if not is_french_business:` dot and digit-run checks (lines 680–693)
      (fb || (decide (l.count '.' ≤ 3) &&
              !(['.'].isPrefixOf l) && !(['.'].isSuffixOf l) &&
              !containsPat l ("..".toList) &&
              !hasRun Char.isDigit 5 l))

/-- `is_valid_email` on a Lean `String`. -/
def is_valid_email (e : String) : Bool := isValidEmailL e.toList

/-! ## `clean_extracted_emails` (source lines 1414–1451) and the
validation tail of `extract_emails_from_html` (source lines 998–1015) -/

/-- The TLD-truncation step of `clean_extracted_emails`:
`re.search(r'(\.[a-z]{2,4})([a-z]+)$', email)`.  Both groups are letters
reaching the end, so a match exists iff the string ends in a dot followed
by ≥ 3 letters; group 1 greedily takes `min 4 (run − 1)` letters.  When
`after_tld` (group 2) is not a whitelisted second-level domain and is
longer than 4 characters, the email is truncated at group 2's start. -/
def tldTruncate (t : Str) : Str :=
  let r := maxLeadRun isLowerAlpha t.reverse
  let stem := t.take (t.length - r)
  if decide (3 ≤ r) && (['.'].isSuffixOf stem) then
    let g1 := min 4 (r - 1)
    let afterTld := t.drop (stem.length + g1)
    let validAfter : List Str := ["com", "org", "net", "edu", "gov"].map String.toList
    if !(validAfter.contains afterTld) && decide (4 < afterTld.length) then
      t.take (stem.length + g1)
    else t
  else t

/-- `re.sub(r'PAT$', '', email)` for a literal suffix pattern. -/
def dropSuffixPat (s : Str) (pat : Str) : Str :=
  if pat.isSuffixOf s then s.take (s.length - pat.length) else s

/-- `re.sub(r'[0-9]+$', '', email)`: drop the maximal trailing digit run. -/
def dropTrailingDigits (s : Str) : Str :=
  s.take (s.length - maxLeadRun Char.isDigit s.reverse)

/-- The `junk_patterns` loop of `clean_extracted_emails`: the suffixes
`facebook$`, `atelier$`, `contact$`, `[0-9]+$` are removed in order. -/
def stripJunk (s : Str) : Str :=
  dropTrailingDigits
    (dropSuffixPat (dropSuffixPat (dropSuffixPat s ("facebook".toList))
      ("atelier".toList)) ("contact".toList))

/-- The per-email body of `clean_extracted_emails`' loop: strip and
lower-case, skip empty strings, truncate TLD garbage, strip junk
suffixes, and keep the result only when `is_valid_email` accepts it. -/
def cleanOne (e : Str) : Option Str :=
  let t := lowerStr (pyStrip e)
  if t.isEmpty then none
  else
    let t2 := stripJunk (tldTruncate t)
    if isValidEmailL t2 then some t2 else none

/-- `clean_extracted_emails` (source lines 1414–1451).  The final
`list(set(cleaned))` is modelled by `List.dedup`, which is faithful up to
element order (CPython set order is unspecified). -/
def clean_extracted_emails (emails : List Str) : List Str :=
  (emails.filterMap cleanOne).dedup

/-- The candidate-accumulation of `extract_emails_from_html`: every string
matched by any pattern is lower-cased and added to the `all_emails` set
(source lines 844–1000).  The pattern matchers and BeautifulSoup
traversals themselves operate on the fetched HTML and are abstracted: the
input here is the list of matched candidate strings, in match order. -/
def collectCandidates (matched : List Str) : List Str :=
  (matched.map lowerStr).dedup

/-- The validation tail of `extract_emails_from_html` (source lines
998–1015): first pass `clean_extracted_emails`, second pass a strict
`is_valid_email` filter. -/
def extractValidate (raw : List Str) : List Str :=
  (clean_extracted_emails raw).filter isValidEmailL

/-- `extract_emails_from_html` from the point where candidates have been
matched: collect (lower-case + dedup), clean, validate.  The function's
`domain` parameter is unused in the source body and therefore does not
appear here. -/
def extractFinalize (matched : List Str) : List Str :=
  extractValidate (collectCandidates matched)

/-! ## Domain affinity (spec-side definitions)

The following two definitions are written from the specification's words
("host part equal to D or a subdomain of D"), to be compared against the
behaviour of the code; the code itself contains no corresponding check. -/

/-- The host part of an email string: everything after the first `'@'`. -/
def hostOf (e : Str) : Str := (e.dropWhile (· ≠ '@')).drop 1

/-- Spec-side: the host `h` equals the company domain `dm` or is a
subdomain of it. -/
def affineTo (h dm : Str) : Bool :=
  decide (h = dm) || (('.' :: dm) : Str).isSuffixOf h

/-! ## `clean_url` (source lines 479–553) -/

/-- A Python value passed to `clean_url`: `None`, a string, or any
non-string value (the source checks `isinstance(url, str)`). -/
inductive PyVal where
  | pynone
  | str (s : String)
  | other
deriving DecidableEq

/-- `SOCIAL_MEDIA_DOMAINS` (source lines 142–147). -/
def socialMediaDomains : List Str :=
  ["facebook.com", "fb.com", "instagram.com", "twitter.com", "x.com",
   "linkedin.com", "youtube.com", "tiktok.com", "snapchat.com",
   "pinterest.com", "whatsapp.com", "telegram.org", "discord.com",
   "reddit.com", "tumblr.com", "flickr.com", "vimeo.com",
   "dailymotion.com"].map String.toList

/-- Hex digit value, for percent-decoding. -/
def hexVal (c : Char) : Option Nat :=
  let n := c.toNat
  if 48 ≤ n ∧ n ≤ 57 then some (n - 48)
  else if 97 ≤ n ∧ n ≤ 102 then some (n - 87)
  else if 65 ≤ n ∧ n ≤ 70 then some (n - 55)
  else none

/-- Model of the stdlib collaborator `urllib.parse.unquote`, restricted to
single-byte percent escapes: each `%XX` with two hex digits becomes the
character of code `XX`; anything else is kept.  (Python additionally
UTF-8-decodes multi-byte escape runs; no claim depends on that case.) -/
def unquoteL : Str → Str
  | [] => []
  | '%' :: a :: b :: rest =>
    match hexVal a, hexVal b with
    | some x, some y => Char.ofNat (16 * x + y) :: unquoteL rest
    | _, _ => '%' :: unquoteL (a :: b :: rest)
  | c :: rest => c :: unquoteL rest

/-- The `prefixes_to_remove` loop (source lines 501–504): only the
`'www.'` branch is live, because `url.startswith('http.')` or
`url.startswith('https.')` each imply `url.startswith('http')`, which the
guard excludes. -/
def stripWwwHead (u : Str) : Str :=
  if ("www.".toList).isPrefixOf u && !(("http".toList).isPrefixOf u) then
    u.drop 4
  else u

/-- `re.sub(r'^www\.', '', domain)`: one anchored removal. -/
def subLeadingWww (u : Str) : Str :=
  if ("www.".toList).isPrefixOf u then u.drop 4 else u

/-- `re.sub(r':\d+$', '', domain)`: remove a trailing colon-plus-digits
port, when present. -/
def stripPort (u : Str) : Str :=
  let r := maxLeadRun Char.isDigit u.reverse
  if decide (1 ≤ r) && ([':'].isSuffixOf (u.take (u.length - r))) then
    u.take (u.length - r - 1)
  else u

/-- `COMPILED_PATTERNS['domain_valid']`, pattern
`^[a-zA-Z0-9.-]+\.[a-zA-Z]{2,}$` (a full match).  The trailing letter
group runs to the end of the string, so the chosen dot is the last one:
the label after the last dot is all letters with length ≥ 2, and the
non-empty prefix before it lies in `[a-zA-Z0-9.-]`. -/
def domainValidB (d : Str) : Bool :=
  d.contains '.' &&
    (let s := (splitC '.' d).getLastD []
     let x := d.take (d.length - s.length - 1)
     decide (2 ≤ s.length) && s.all isAlphaBoth &&
       !x.isEmpty && x.all isMainDomain)

/-- `re.match(r'^\d+\.\d+\.\d+\.\d+$', domain)`: a bare IPv4 shape. -/
def ipv4Shape (d : Str) : Bool :=
  let ps := splitC '.' d
  decide (ps.length = 4) && ps.all fun p => !p.isEmpty && p.all Char.isDigit

/-- The pre-normalisation of `clean_url` (source lines 491–504): strip
the query at the first `'?'`, percent-decode, and remove a leading
`'www.'` when the URL does not start with `'http'`. -/
def preNormalize (u1 : Str) : Str :=
  stripWwwHead (unquoteL (if u1.contains '?' then (splitC '?' u1).headD [] else u1))

/-- The protocol-completion step of `clean_url` (source lines 506–514):
keep a URL that already has a scheme; prepend `https://` when the URL
contains a dot and does not start with `'/'`; the residual `www.` branch
is dead (a `'www.'` prefix implies a dot); otherwise give up. -/
def addProtocol (u4 : Str) : Option Str :=
  if ("http://".toList).isPrefixOf u4 || ("https://".toList).isPrefixOf u4 then
    some u4
  else if u4.contains '.' && !(['/'].isPrefixOf u4) then
    some ("https://".toList ++ u4)
  else if ("www.".toList).isPrefixOf u4 then
    some ("https://".toList ++ u4)
  else none

/-- `parsed = urlparse(url); domain = parsed.netloc` with the path
fallback (source lines 516–524).  `urlparse` is a stdlib collaborator;
its used slice is modelled directly: for a URL starting with `http://` or
`https://`, `netloc` is the text after the scheme up to the first of
`/ ? #`, and `path` is the rest up to the first of `? #`. -/
def extractNetloc (u5 : Str) : Option Str :=
  let rest := if ("https://".toList).isPrefixOf u5 then u5.drop 8 else u5.drop 7
  let netloc := rest.takeWhile fun c => !(c = '/' || c = '?' || c = '#')
  if netloc.isEmpty then
    let path := rest.takeWhile fun c => !(c = '?' || c = '#')
    if !path.isEmpty && path.contains '.' then
      some ((splitC '/' path).headD [])
    else none
  else some netloc

/-- The final filter chain of `clean_url` (source lines 531–550): reject
social-media hosts, hosts failing the domain-syntax pattern, hosts with
more than 3 dots, over-long hosts, and bare IPv4 addresses. -/
def finalChecks (dm : Str) : Option Str :=
  if socialMediaDomains.contains dm then none
  else if !domainValidB dm then none
  else if decide (3 < dm.count '.') then none
  else if decide (253 < dm.length) then none
  else if ipv4Shape dm then none
  else some dm

/-- The tail of `clean_url` after the length guard: pre-normalise, add a
protocol, extract the host, then lower-case it, strip a leading `www.`
and a port, and run the final filters. -/
def cleanUrlTail (u1 : Str) : Option Str :=
  match addProtocol (preNormalize u1) with
  | none => none
  | some u5 =>
    match extractNetloc u5 with
    | none => none
    | some dm0 => finalChecks (stripPort (subLeadingWww (lowerStr dm0)))

/-- `clean_url` (source lines 479–553). -/
def clean_url (v : PyVal) : Option Str :=
  match v with
  | .pynone => none
  | .other => none
  | .str s =>
    -- `if not url or not isinstance(url, str): return None`
    if s.toList.isEmpty then none
    -- `url = url.strip()`; `if not url or len(url) < 4: return None`
    else if (pyStrip s.toList).isEmpty || decide ((pyStrip s.toList).length < 4) then
      none
    else cleanUrlTail (pyStrip s.toList)

/-! ## `get_priority_urls` (source lines 1124–1205) -/

/-- Substring containment on Lean `String`s (Python `in`). -/
def strContains (hay pat : String) : Bool := containsPat hay.toList pat.toList

/-- The scoring categories of `get_priority_urls`. -/
inductive Cat where
  | high
  | medium
  | low
  | other
deriving DecidableEq, Repr

/-- `priority_patterns['high']` (source lines 1132–1135). -/
def highKeywords : List String :=
  ["contact", "nous-contacter", "contactez-nous", "contact-us",
   "coordonnees", "nous-joindre"]

/-- `priority_patterns['medium']` (source lines 1137–1140). -/
def mediumKeywords : List String :=
  ["about", "about-us", "a-propos", "qui-sommes-nous",
   "team", "equipe", "notre-equipe", "staff", "direction"]

/-- `priority_patterns['low']` (source lines 1142–1145). -/
def lowKeywords : List String :=
  ["services", "prestations", "offres",
   "legal", "mentions", "politique", "privacy"]

/-- The keyword-scoring cascade of `get_priority_urls` (source lines
1151–1177): the keyword loops with `break` add the bonus once when any
keyword of the tier occurs in the lower-cased URL. -/
def categoryScore (u : String) : Int × Cat :=
  let uLower := String.mk (lowerStr u.toList)
  if highKeywords.any (fun k => strContains uLower k) then (10, .high)
  else if mediumKeywords.any (fun k => strContains uLower k) then (5, .medium)
  else if lowKeywords.any (fun k => strContains uLower k) then (2, .low)
  else (0, .other)

/-- The short-URL bonus `if len(url.split('/')) <= 4: score += 1`
(source line 1180). -/
def shortBonus (u : String) : Int :=
  if (splitC '/' u.toList).length ≤ 4 then 1 else 0

/-- The long-query penalty
`if '?' in url and len(url.split('?')[1]) > 50: score -= 2`
(source line 1184). -/
def queryPenalty (u : String) : Int :=
  if u.toList.contains '?' &&
      decide (50 < ((splitC '?' u.toList).getD 1 []).length) then 2 else 0

/-- The full score of one URL as computed by the source loop. -/
def scoreOf (u : String) : Int := (categoryScore u).1 + shortBonus u - queryPenalty u

/-- Spec-side scoring formula, written from the claim's words: +10 for a
high-priority (contact) keyword match, else +5 for a medium (about/team)
match, else +2 for a low (service/legal) match, plus 1 short-URL bonus,
minus 2 long-query penalty. -/
def scoreSpec (u : String) : Int :=
  let uLower := String.mk (lowerStr u.toList)
  (if highKeywords.any (fun k => strContains uLower k) then (10 : Int)
   else if mediumKeywords.any (fun k => strContains uLower k) then 5
   else if lowKeywords.any (fun k => strContains uLower k) then 2
   else 0)
  + (if (splitC '/' u.toList).length ≤ 4 then 1 else 0)
  - (if u.toList.contains '?' &&
        decide (50 < ((splitC '?' u.toList).getD 1 []).length) then 2 else 0)

/-- One scored URL: input position, URL, score and category. -/
structure Entry where
  idx : Nat
  url : String
  score : Int
  cat : Cat
deriving DecidableEq, Repr

/-- The scored URL list `url_scores`, with input positions recorded. -/
def mkEntries (urls : List String) : List Entry :=
  urls.enum.map fun p => ⟨p.1, p.2, scoreOf p.2, (categoryScore p.2).2⟩

/-- Python's stable `sort(key=score, reverse=True)`: higher score first,
ties in input order.  On entries with pairwise-distinct input positions
this order is total and antisymmetric, so any correct sort produces the
unique sorted arrangement; `List.insertionSort` is used. -/
def entOrd (a b : Entry) : Prop :=
  b.score < a.score ∨ (a.score = b.score ∧ a.idx ≤ b.idx)

instance : DecidableRel entOrd := fun a b => by
  unfold entOrd; infer_instance

instance : IsTotal Entry entOrd where
  total a b := by
    unfold entOrd
    rcases lt_trichotomy a.score b.score with h | h | h
    · exact .inr (.inl h)
    · rcases Nat.le_total a.idx b.idx with h2 | h2
      · exact .inl (.inr ⟨h, h2⟩)
      · exact .inr (.inr ⟨h.symm, h2⟩)
    · exact .inl (.inl h)

instance : IsTrans Entry entOrd where
  trans a b c hab hbc := by
    unfold entOrd at *
    rcases hab with h1 | ⟨h1, h1'⟩ <;> rcases hbc with h2 | ⟨h2, h2'⟩
    · exact .inl (h2.trans h1)
    · exact .inl (h2 ▸ h1)
    · exact .inl (h1 ▸ h2)
    · exact .inr ⟨h1.trans h2, h1'.trans h2'⟩

/-- `url_scores.sort(key=lambda x: x[1], reverse=True)`. -/
def sortedEntries (urls : List String) : List Entry :=
  List.insertionSort entOrd (mkEntries urls)

/-- `category_limits = {'high': 3, 'medium': 2, 'low': 2, 'other': 1}`. -/
def catLimit : Cat → Nat
  | .high => 3
  | .medium => 2
  | .low => 2
  | .other => 1

/-- Per-category counters (`category_counts`). -/
structure Counts where
  high : Nat
  medium : Nat
  low : Nat
  other : Nat

def Counts.get (c : Counts) : Cat → Nat
  | .high => c.high
  | .medium => c.medium
  | .low => c.low
  | .other => c.other

def Counts.bump (c : Counts) : Cat → Counts
  | .high => { c with high := c.high + 1 }
  | .medium => { c with medium := c.medium + 1 }
  | .low => { c with low := c.low + 1 }
  | .other => { c with other := c.other + 1 }

/-- The selection loop of `get_priority_urls` (source lines 1193–1203):
append while the entry's category is under its limit; after each
iteration stop once 8 URLs are collected.  `total` is the current length
of `prioritized`. -/
def selectLoop : List Entry → Counts → Nat → List Entry
  | [], _, _ => []
  | e :: rest, counts, total =>
    if counts.get e.cat < catLimit e.cat then
      if 8 ≤ total + 1 then [e]
      else e :: selectLoop rest (counts.bump e.cat) (total + 1)
    else if 8 ≤ total then []
    else selectLoop rest counts total

/-- The entries selected by `get_priority_urls`. -/
def selectedEntries (urls : List String) : List Entry :=
  selectLoop (sortedEntries urls) ⟨0, 0, 0, 0⟩ 0

/-- `get_priority_urls` (source lines 1124–1205); the `domain` parameter
of the source is unused in its body and omitted. -/
def get_priority_urls (urls : List String) : List String :=
  if urls.isEmpty then []
  else (selectedEntries urls).map Entry.url

/-! ## Per-domain discovery (source lines 1207–1412)

Network fetching and HTML extraction are effects; they are passed as
oracles: `F url` is the `(content, errors)` result of
`fetch_website_content url` collapsed to its content (`none` for a `None`
content), and `E content` is the validated email list that
`extract_emails_from_html content domain` returns for the fetched page.
The control flow around the oracles is translated from the source. -/

/-- Result of the sequential crawl loop of `discover_emails_for_domain`
(source lines 1343–1381). -/
structure CrawlOut where
  emails : List String
  pages : List String
  cats : List String
  fetches : Nat
deriving Repr

/-- The `test_urls` list (source lines 1344–1351): six fixed candidates
in order. -/
def testUrls (domain : String) : List (String × String) :=
  [("https://" ++ domain ++ "/contact", "contact_high"),
   ("https://" ++ domain ++ "/nous-contacter", "contact_high"),
   ("https://" ++ domain, "main"),
   ("https://www." ++ domain ++ "/contact", "contact_high"),
   ("https://www." ++ domain, "main"),
   ("http://" ++ domain, "main")]

/-- The sequential early-exit loop over `test_urls` (source lines
1353–1381): fetch each candidate in order; on the first candidate whose
content is truthy and whose extraction yields at least one email, record
the page and its category and stop.  `fetches` counts
`fetch_website_content` calls.  (Error-tag statistics and debug printing
are omitted; they do not affect emails, pages, or control flow.) -/
def crawlLoop (F : String → Option String) (E : String → List String) :
    List (String × String) → CrawlOut
  | [] => ⟨[], [], [], 0⟩
  | (u, cat) :: rest =>
    match F u with
    | some c =>
      if c ≠ "" then
        let es := E c
        if es ≠ [] then ⟨es, [u], [cat], 1⟩
        else
          let r := crawlLoop F E rest
          ⟨r.emails, r.pages, r.cats, r.fetches + 1⟩
      else
        let r := crawlLoop F E rest
        ⟨r.emails, r.pages, r.cats, r.fetches + 1⟩
    | none =>
      let r := crawlLoop F E rest
      ⟨r.emails, r.pages, r.cats, r.fetches + 1⟩

/-- The collection loop of `discover_emails_via_sitemap` (source lines
1242–1263): each processed URL is appended to `pages_accessed`
unconditionally — whether or not its fetch produced content — and emails
are accumulated from pages with truthy content.  The `as_completed`
completion order is modelled as list order. -/
def sitemapProcess (F : String → Option String) (E : String → List String) :
    List String → List String × List String
  | [] => ([], [])
  | u :: rest =>
    let cur := match F u with
      | some c => if c ≠ "" then E c else []
      | none => []
    let (es, ps) := sitemapProcess F E rest
    (cur ++ es, u :: ps)

/-- `discover_emails_via_sitemap` (source lines 1207–1265).  Sitemap
retrieval and XML parsing (`get_sitemap_urls`, `parse_sitemap`) are
network effects, abstracted by the oracle `P domain` = the URL list
collected from the discovered sitemaps; the source then deduplicates,
prioritizes with `get_priority_urls`, and processes the priority URLs. -/
def discoverViaSitemap (F : String → Option String) (E : String → List String)
    (P : String → List String) (domain : String) : List String × List String :=
  let priority := get_priority_urls (P domain).dedup
  let (es, ps) := sitemapProcess F E priority
  (es.dedup, ps)

/-- Result of `discover_emails_for_domain`. -/
structure DomainResult where
  emails : List String
  method : String
  pages : List String
  fetches : Nat
  sitemapUsed : Bool
deriving Repr

/-- The discovery-method computation (source lines 1398–1409). -/
def methodOf (cats : List String) : String :=
  if cats.contains "main" then "web_main"
  else if cats.contains "contact_high" || cats.contains "contact_medium" then
    "web_contact"
  else if cats.contains "about" then "web_about"
  else "web_other"

/-- `discover_emails_for_domain` (source lines 1267–1412): guard on an
empty domain, sequential early-exit crawl, sitemap fallback only when the
crawl found nothing, then method computation.  `list(all_emails)` is
modelled by `dedup` (set semantics, faithful up to order). -/
def discoverForDomain (F : String → Option String) (E : String → List String)
    (P : String → List String) (domain : String) : DomainResult :=
  if domain = "" then ⟨[], "no_domain", [], 0, false⟩
  else
    let co := crawlLoop F E (testUrls domain)
    if co.emails = [] then
      let (semails, spages) := discoverViaSitemap F E P domain
      if semails ≠ [] then
        ⟨semails, "sitemap", co.pages ++ spages, co.fetches, true⟩
      else ⟨[], "not_found", co.pages ++ spages, co.fetches, true⟩
    else ⟨co.emails.dedup, methodOf co.cats, co.pages, co.fetches, false⟩

/-! ## `process_single_company_worker` (source lines 1554–1642) -/

/-- The `ProcessingResult` fields the invariants speak about. -/
structure WorkerResult where
  name : Option String
  domain : Option String
  website : Option String
  emails : List String
  method : String
  success : Bool
  pages : List String
deriving Repr

/-- `process_single_company_worker` (source lines 1554–1642) after field
extraction: `domain = clean_url(website) if website else None`; with a
domain, run discovery and set `success = len(emails) > 0`; without one,
produce the terminal `no_domain` result.  (Timing, verbose printing and
the monitor are omitted; they do not affect the recorded fields.) -/
def processSingleCompanyWorker (F : String → Option String)
    (E : String → List String) (P : String → List String)
    (name website : Option String) : WorkerResult :=
  let dom : Option String :=
    match website with
    | some w => if w = "" then none else (clean_url (.str w)).map String.mk
    | none => none
  match dom with
  | some d =>
    let r := discoverForDomain F E P d
    ⟨name, some d, website, r.emails, r.method,
      decide (0 < r.emails.length), r.pages⟩
  | none => ⟨name, none, website, [], "no_domain", false, []⟩

/-! ## Checkpoint store: `save_progress_csv` (source lines 1500–1543) and
`find_latest_progress_file` (source lines 1453–1498)

A checkpoint file is modelled as its parsed row list (the `csv` module
collaborator round-trips field strings exactly).  Only the columns the
claims speak about — `name` and `emails_found` — are carried. -/

/-- One CSV row of a progress file. -/
structure SavedRow where
  name : Str
  emailsJoined : Str
deriving DecidableEq

/-- The result record fields that `save_progress_csv` serializes. -/
structure ResultRec where
  name : Str
  emails : List Str
deriving DecidableEq

/-- `', '.join(emails)`. -/
def joinComma : List Str → Str
  | [] => []
  | [e] => e
  | e :: rest => e ++ (',' :: ' ' :: joinComma rest)

/-- `save_progress_csv` (source lines 1500–1543): buffer (write nothing)
unless at least 500 results are pending or the total-processed counter is
a multiple of 500; otherwise write one file with one row per result,
emails comma-joined. -/
def saveProgressCsv (results : List ResultRec) (totalProcessed : Nat) :
    Option (List SavedRow) :=
  if results.length < 500 ∧ totalProcessed % 500 ≠ 0 then none
  else some (results.map fun r => ⟨r.name, joinComma r.emails⟩)

/-- The email counting of `find_latest_progress_file` (source lines
1479–1482): split the joined field on `','` and count the parts that are
non-empty after stripping. -/
def countEmailsField (s : Str) : Nat :=
  ((splitC ',' s).filter fun t => !(pyStrip t).isEmpty).length

/-- The per-row contribution to the resumed email count:
`if row.get('emails_found'):` then count the joined field, else nothing. -/
def rowCount (row : SavedRow) : Nat :=
  if row.emailsJoined ≠ [] then countEmailsField row.emailsJoined else 0

/-- The per-row body of `find_latest_progress_file`'s merge loop (source
lines 1475–1482): rows with an empty `name` are skipped entirely;
otherwise the name joins the processed set and the row's emails are
counted. -/
def loadStep (acc : Finset Str × Nat) (row : SavedRow) : Finset Str × Nat :=
  if row.name ≠ [] then (insert row.name acc.1, acc.2 + rowCount row)
  else acc

/-- The merge loop of `find_latest_progress_file` (source lines
1466–1485): read every progress file, union the non-empty names, and sum
the email counts. -/
def loadProgress (files : List (List SavedRow)) : Finset Str × Nat :=
  files.foldl (fun acc file => file.foldl loadStep acc) (∅, 0)

/-! ## `fetch_website_content` (source lines 728–837)

One HTTP attempt is summarized by an `AttemptOutcome` oracle value: either
a response (status, Content-Length header, body read, content type,
Location header, and whether the streamed read exceeded the 5 MB cap) or
one of the exception classes the source catches.  Every exception branch
of the source is a caught branch — the function is total, which is the
embedding of "never raises for ordinary network failure".  The unbounded
redirect recursion of the source (absorbed in Python by `RecursionError`
being caught as `unexpected_error_RecursionError`) is modelled by a fuel
parameter whose exhaustion produces that same absorbed outcome. -/

/-- The outcome of one `session.get` attempt. -/
inductive AttemptOutcome where
  /-- a response: status, `content-length` header, body, `content-type`
  header (`""` when absent), `location` header, oversize flag for the
  streamed read -/
  | resp (status : Nat) (lenHdr : Option Nat) (content : String)
      (ctype : String) (loc : Option String) (oversize : Bool)
  /-- `requests.exceptions.SSLError`; `fallback` is the body of the
  plain-HTTP retry when that retry returned status 200, else `none` -/
  | sslErr (fallback : Option String)
  /-- `requests.exceptions.Timeout` -/
  | timeoutE
  /-- `requests.exceptions.ConnectionError` -/
  | connE
  /-- another `requests.exceptions.RequestException`, by class name -/
  | reqE (name : String)
  /-- any other exception, by class name -/
  | otherE (name : String)

/-- The content-type acceptance check for a 200 response (source lines
777–783). -/
def contentTypeOk (ctype content : String) : Bool :=
  let ct := String.mk (lowerStr ctype.toList)
  (["text/html", "text/plain", "application/xhtml", "text/"].any fun s =>
      strContains ct s) ||
    (ct = "" &&
      (strContains (String.mk (lowerStr content.toList)) "<html" ||
       strContains (String.mk (lowerStr content.toList)) "<!doctype"))

/-- Model of the stdlib collaborator `urllib.parse.urljoin`, for the
redirect branch: an absolute-path location is resolved against the
scheme-and-host of the base, anything else is appended to the base's
directory. -/
def urljoinModel (base rel : String) : String :=
  let bl := base.toList
  let scheme : Str :=
    if ("https://".toList).isPrefixOf bl then "https://".toList
    else if ("http://".toList).isPrefixOf bl then "http://".toList
    else []
  let rest := bl.drop scheme.length
  let host := rest.takeWhile (fun c => !(c = '/' || c = '?' || c = '#'))
  if ("/".toList).isPrefixOf rel.toList then
    String.mk (scheme ++ host ++ rel.toList)
  else
    String.mk (scheme ++ host ++ '/' :: rel.toList)

/-- Whether a followable-redirect branch is taken for outcome `o` at
`url` (status 301/302/303/307/308 with a Location resolving to a
different URL): the source then returns
`fetch_website_content(redirect_url, max_retries=0)`. -/
def followedRedirect (url : String) (o : AttemptOutcome) : Option String :=
  match o with
  | .resp status _ _ _ loc _ =>
    if status = 301 ∨ status = 302 ∨ status = 303 ∨ status = 307 ∨ status = 308 then
      match loc with
      | some l =>
        let target := if ("http".toList).isPrefixOf l.toList then l
                      else urljoinModel url l
        if target ≠ url then some target else none
      | none => none
    else none
  | _ => none

/-- How one attempt of the retry loop proceeds. -/
inductive StepRes where
  /-- `return content_or_none, errors`: leave the loop after appending
  `tags` to the error list -/
  | retval (content : Option String) (tags : List String)
  /-- `return fetch_website_content(redirect_url, max_retries=0)`: the
  recursive call's result is returned verbatim, discarding the error
  tags accumulated so far -/
  | redirected (res : Option String × List String)
  /-- fall through to the next attempt after appending `tags` -/
  | next (tags : List String)

/-- One attempt body of `fetch_website_content`'s retry loop (source
lines 737–831), parameterized by the handler for a followed redirect. -/
def attemptStep (url : String) (o : AttemptOutcome)
    (redir : String → Option String × List String) : StepRes :=
  match o with
  | .resp status lenHdr content ctype _ oversize =>
    -- `if content_length and int(content_length) > 10MB` (lines 757–760)
    if (match lenHdr with
        | some n => decide (10 * 1024 * 1024 < n)
        | none => false) then
      .retval none ["content_too_large_" ++
        toString ((match lenHdr with | some n => n | none => 0) : Nat)]
    else
      -- streamed read; `content_size_exceeded` tag on cap (lines 762–773)
      let tags := if oversize then ["content_size_exceeded"] else []
      if status = 200 then
        if contentTypeOk ctype content then .retval (some content) tags
        else .next tags  -- 200 with rejected content type: no tag, next attempt
      else
        match followedRedirect url o with
        | some target => .redirected (redir target)
        | none =>
          if status = 301 ∨ status = 302 ∨ status = 303 ∨ status = 307 ∨ status = 308 then
            .next tags  -- unfollowed redirect: no tag
          else
            .next (tags ++ ["http_" ++ toString status])
  | .sslErr fallback =>
    -- lines 805–815: tag, then one plain-HTTP retry when the URL is HTTPS
    if ("https://".toList).isPrefixOf url.toList then
      match fallback with
      | some body => .retval (some body) ["ssl_error"]
      | none => .next ["ssl_error"]
    else .next ["ssl_error"]
  | .timeoutE => .next ["timeout"]
  | .connE => .next ["connection_error"]
  | .reqE n => .next ["request_error_" ++ n]
  | .otherE n => .next ["unexpected_error_" ++ n]

/-- The retry loop of `fetch_website_content`: attempts
`0 … maxRetries`, accumulating error tags; a `retval`/`redirected` step
leaves the loop, exhaustion returns `(None, errors)`. -/
def fetchAttempts (O : String → Nat → AttemptOutcome) (url : String)
    (redir : String → Option String × List String) :
    Nat → Nat → List String → Option String × List String
  | 0, _, errors => (none, errors)
  | remaining + 1, attempt, errors =>
    match attemptStep url (O url attempt) redir with
    | .retval c tags => (c, errors ++ tags)
    | .redirected res => res
    | .next tags => fetchAttempts O url redir remaining (attempt + 1) (errors ++ tags)

/-- `fetch_website_content` with explicit redirect fuel.  A followed
redirect restarts with `max_retries = 0` and a fresh error list (the
source returns the recursive call's result directly, discarding the tags
accumulated so far).  Fuel exhaustion models Python's stack limit, whose
`RecursionError` the source catches as an `unexpected_error_…` tag on the
frame above. -/
def fetchFuel (O : String → Nat → AttemptOutcome) :
    Nat → String → Nat → Option String × List String
  | 0, _, _ => (none, ["unexpected_error_RecursionError"])
  | fuel + 1, url, maxRetries =>
    fetchAttempts O url (fun t => fetchFuel O fuel t 0)
      (maxRetries + 1) 0 []

/-- `fetch_website_content(url, max_retries)`, with the default redirect
fuel standing for Python's recursion limit. -/
def fetch_website_content (O : String → Nat → AttemptOutcome)
    (url : String) (maxRetries : Nat) : Option String × List String :=
  fetchFuel O 1000 url maxRetries

/-- The error tags one attempt appends while processing outcome `o`
(computed with a dummy redirect handler, which `attemptStep` ignores
whenever no redirect is followed). -/
def attemptTags (url : String) (o : AttemptOutcome) : List String :=
  match attemptStep url o (fun _ => (none, [])) with
  | .retval _ tags => tags
  | .redirected _ => []
  | .next tags => tags

/-- Whether processing outcome `o` falls through to the next attempt of
the retry loop. -/
def stepAdvances (url : String) (o : AttemptOutcome) : Bool :=
  match attemptStep url o (fun _ => (none, [])) with
  | .next _ => true
  | _ => false

/-- A candidate URL "succeeds" in the crawl loop: its fetch returns
truthy (non-empty) content from which extraction yields at least one
validated email. -/
def urlSucceeds (F : String → Option String) (E : String → List String)
    (u : String) : Prop :=
  ∃ c, F u = some c ∧ c ≠ "" ∧ E c ≠ []

/-! # Theorems -/

/-! ## Shared helper lemmas -/

/-- `dropWhile` never lengthens a list. -/
theorem dropWhileLen (p : Char → Bool) (l : Str) :
    (l.dropWhile p).length ≤ l.length := by
  induction l with
  | nil => simp
  | cons c t ih =>
    by_cases h : p c
    · simp only [List.dropWhile, h]
      exact le_trans ih (by simp)
    · simp [List.dropWhile, h]

/-- `str.strip()` never lengthens a string. -/
theorem pyStripLen (s : Str) : (pyStrip s).length ≤ s.length := by
  unfold pyStrip rstrip lstrip
  calc ((s.dropWhile Char.isWhitespace).reverse.dropWhile
          Char.isWhitespace).reverse.length
      = ((s.dropWhile Char.isWhitespace).reverse.dropWhile
          Char.isWhitespace).length := by rw [List.length_reverse]
    _ ≤ (s.dropWhile Char.isWhitespace).reverse.length := dropWhileLen _ _
    _ = (s.dropWhile Char.isWhitespace).length := by rw [List.length_reverse]
    _ ≤ s.length := dropWhileLen _ _

/-- What surviving `finalChecks` guarantees about the returned domain. -/
theorem finalChecks_post {dm r : Str} (h : finalChecks dm = some r) :
    r = dm ∧ socialMediaDomains.contains dm = false ∧ dm.count '.' ≤ 3 ∧
      ipv4Shape dm = false ∧ domainValidB dm = true ∧ dm.length ≤ 253 := by
  unfold finalChecks at h
  split at h
  · exact absurd h (by simp)
  · split at h
    · exact absurd h (by simp)
    · split at h
      · exact absurd h (by simp)
      · split at h
        · exact absurd h (by simp)
        · split at h
          · exact absurd h (by simp)
          · rename_i hsoc hdv hcount hlen hip
            rw [Option.some.injEq] at h
            subst h
            refine ⟨rfl, by simpa using hsoc,
              by simp only [decide_eq_true_eq] at hcount; omega,
              by simpa using hip, by simpa using hdv,
              by simp only [decide_eq_true_eq] at hlen; omega⟩

/-- Anything `cleanOne` returns passed `is_valid_email`. -/
theorem cleanOne_isValid {x c : Str} (h : cleanOne x = some c) :
    isValidEmailL c = true := by
  simp only [cleanOne] at h
  split at h
  · exact absurd h (by simp)
  · split at h
    · rw [Option.some.injEq] at h
      subst h
      assumption
    · exact absurd h (by simp)

/-! ## C2 — `success` iff `emails` non-empty -/

/-- C2: for every company processed by `process_single_company_worker`
(over arbitrary fetch/extraction/sitemap oracles and input fields), the
result's `success` flag is `true` iff its `emails` list is non-empty. -/
theorem C2_success_iff_emails (F : String → Option String)
    (E : String → List String) (P : String → List String)
    (name website : Option String) :
    (processSingleCompanyWorker F E P name website).success = true ↔
      (processSingleCompanyWorker F E P name website).emails ≠ [] := by
  unfold processSingleCompanyWorker
  rcases website with _ | w
  · simp
  · dsimp only
    by_cases hw : w = ""
    · simp [hw]
    · rw [if_neg hw]
      cases hd : Option.map String.mk (clean_url (PyVal.str w)) <;>
        simp [List.length_pos]

/-! ## C1 — domain affinity -/

set_option maxHeartbeats 2000000 in
/-- C1 (counterexample): the claim "every email in the result has a host
equal to the known domain or a subdomain of it; others are rejected by
validation" is false.  For the company domain `acme.fr` (which
`clean_url` resolves, so the domain is known), a page containing the
candidate `contact@other.fr` produces a `ProcessingResult` whose `emails`
list contains `contact@other.fr`, whose host `other.fr` is neither
`acme.fr` nor a subdomain of it: validation performs no domain-affinity
check (`is_valid_email` does not even receive the domain, and
`extract_emails_from_html` ignores its `domain` parameter). -/
theorem C1_cross_domain_cex :
    clean_url (.str "acme.fr") = some ("acme.fr".toList) ∧
    (processSingleCompanyWorker (fun _ => some "page")
        (fun _ => (extractFinalize ["contact@other.fr".toList]).map String.mk)
        (fun _ => []) (some "acme") (some "acme.fr")).emails
      = ["contact@other.fr"] ∧
    affineTo (hostOf "contact@other.fr".toList) ("acme.fr".toList) = false := by
  refine ⟨by decide, ?_, by decide⟩
  decide

/-- C1 (amended): every email in the extraction result passes the
(purely syntactic/anti-spam) validator `is_valid_email`; no
domain-affinity condition is enforced, so the result is independent of
the company's domain and may contain off-domain addresses. -/
theorem C1_emails_validated (raw : List Str) (e : Str)
    (h : e ∈ extractFinalize raw) : isValidEmailL e = true := by
  unfold extractFinalize extractValidate at h
  exact (List.mem_filter.mp h).2

/-- Witness for `C1_emails_validated` at a concrete input. -/
theorem C1_emails_validated_witness :
    "contact@acme.fr".toList ∈ extractFinalize ["contact@acme.fr".toList] ∧
      isValidEmailL "contact@acme.fr".toList = true := by
  have hm : "contact@acme.fr".toList ∈ extractFinalize ["contact@acme.fr".toList] := by
    decide
  exact ⟨hm, C1_emails_validated _ _ hm⟩

/-! ## C9 — extraction never rejects -/

/-- C9 (counterexample): the claim "the returned email list contains
every candidate string matched by any of its patterns" is false: the
matched candidate `noreply@x.fr` (already lower-case) is absent from the
extraction stage's returned list, because `clean_extracted_emails` and
the final pass inside `extract_emails_from_html` both filter with
`is_valid_email`. -/
theorem C9_rejected_candidate_cex :
    extractFinalize ["noreply@x.fr".toList] = [] ∧
      isValidEmailL "noreply@x.fr".toList = false := by
  decide

/-- C9 (amended): the extraction stage lower-cases and deduplicates all
matched candidates, but its returned list is post-validation: (i) every
returned email passed `is_valid_email`, and (ii) every matched candidate
whose cleaned form (`clean_extracted_emails`' per-email cleanup) passes
validation does appear in the returned list — so extraction drops exactly
the candidates the cleanup-plus-validator rejects. -/
theorem C9_extraction_behaviour (ms : List Str) :
    (∀ e ∈ extractFinalize ms, isValidEmailL e = true) ∧
    (∀ m ∈ ms, ∀ c, cleanOne (lowerStr m) = some c → c ∈ extractFinalize ms) := by
  constructor
  · intro e he
    unfold extractFinalize extractValidate at he
    exact (List.mem_filter.mp he).2
  · intro m hm c hc
    unfold extractFinalize extractValidate clean_extracted_emails collectCandidates
    refine List.mem_filter.mpr ⟨?_, cleanOne_isValid hc⟩
    refine List.mem_dedup.mpr ?_
    refine List.mem_filterMap.mpr ⟨lowerStr m, ?_, hc⟩
    exact List.mem_dedup.mpr (List.mem_map_of_mem lowerStr hm)

/-- Witness for `C9_extraction_behaviour` at a concrete input: the
mixed-case candidate `Contact@Acme.fr` is returned lower-cased. -/
theorem C9_extraction_behaviour_witness :
    cleanOne (lowerStr "Contact@Acme.fr".toList)
        = some ("contact@acme.fr".toList) ∧
      "contact@acme.fr".toList ∈ extractFinalize ["Contact@Acme.fr".toList] ∧
      isValidEmailL "contact@acme.fr".toList = true := by
  have h1 : cleanOne (lowerStr "Contact@Acme.fr".toList)
      = some ("contact@acme.fr".toList) := by decide
  have h2 := (C9_extraction_behaviour ["Contact@Acme.fr".toList]).2
    "Contact@Acme.fr".toList (by decide) _ h1
  exact ⟨h1, h2, (C9_extraction_behaviour ["Contact@Acme.fr".toList]).1 _ h2⟩

/-! ## C6 — numeric local-part rules -/

/-- C6 (counterexample): the claim's third rule — "rejected when the
local part begins with 3 or more digits" — does not exist in the code:
`123abc@acme.fr` has a non-whitelisted local part beginning with exactly
three digits (50 % digits, not all digits) and `is_valid_email` accepts
it. -/
theorem C6_leading_digits_cex :
    is_valid_email "123abc@acme.fr" = true ∧
      frenchBusinessB ("123abc@acme.fr".toList) = false ∧
      ((("123abc@acme.fr".toList).takeWhile (· ≠ '@')).takeWhile
          Char.isDigit).length = 3 := by
  decide

/-- C6 (amended): for a candidate whose (stripped, lower-cased) form has
exactly one `'@'` and a non-whitelisted local part, `is_valid_email`
returns `false` whenever digits make up more than 60 % of the local part
or the local part consists entirely of digits.  (There is no separate
rule about a local part merely *beginning* with 3 digits.) -/
theorem C6_digit_rules (e : Str)
    (h1 : (lowerStr (pyStrip e)).count '@' = 1)
    (h2 : frenchBusinessB (lowerStr (pyStrip e)) = false)
    (h3 : 3 * ((lowerStr (pyStrip e)).takeWhile (· ≠ '@')).length <
            5 * digitCount ((lowerStr (pyStrip e)).takeWhile (· ≠ '@')) ∨
          fakeAllDigits ((lowerStr (pyStrip e)).takeWhile (· ≠ '@')) = true) :
    isValidEmailL e = false := by
  cases hb : isValidEmailL e with
  | false => rfl
  | true =>
    exfalso
    unfold isValidEmailL at hb
    split at hb
    · exact absurd hb (by simp)
    · rw [if_neg (by simp [h1])] at hb
      simp only [Bool.and_eq_true, Bool.not_eq_true', Bool.or_eq_true] at hb
      have hdig := hb.1.1.1.1.1.1.1.1.1.1.1.1.1.1.2
      have hfb := hb.1.1.1.1.1.2
      rcases h3 with h3 | h3
      · rcases hfb with hfb | ⟨⟨-, hratio⟩, -⟩
        · rw [h2] at hfb
          exact Bool.noConfusion hfb
        · rw [decide_eq_false_iff_not] at hratio
          exact hratio h3
      · rw [h3] at hdig
        exact Bool.noConfusion hdig

/-- Witness for `C6_digit_rules`: `ab1234@x.fr` is 66 % digits and is
rejected. -/
theorem C6_digit_rules_witness :
    (lowerStr (pyStrip "ab1234@x.fr".toList)).count '@' = 1 ∧
      isValidEmailL "ab1234@x.fr".toList = false :=
  ⟨by decide,
   C6_digit_rules "ab1234@x.fr".toList (by decide) (by decide)
     (Or.inl (by decide))⟩

/-! ## C3 — `pagesAccessed` contents -/

/-- C3 (counterexample): in the sitemap-fallback path a URL whose fetch
failed is still listed in `pagesAccessed`.  With a fetch oracle that
fails on every URL (`fun _ => none`) and a sitemap providing one priority
URL, the result's `pagesAccessed` contains that URL even though its fetch
returned nothing — contradicting "a URL whose fetch failed is never an
element of pagesAccessed". -/
theorem C3_failed_page_cex :
    (discoverForDomain (fun _ => none) (fun _ => [])
        (fun _ => ["https://x.fr/contact"]) "x.fr").pages
      = ["https://x.fr/contact"] := by
  rfl

/-- C3 (amended): in the direct-crawl path, `pagesAccessed` only
contains URLs whose fetch returned truthy content from which at least one
email was extracted; in the sitemap-fallback path, however, every
processed priority URL is appended to `pagesAccessed` regardless of its
fetch outcome. -/
theorem C3_pages_accessed (F : String → Option String)
    (E : String → List String) :
    (∀ (l : List (String × String)) (u : String),
        u ∈ (crawlLoop F E l).pages →
          ∃ c, F u = some c ∧ c ≠ "" ∧ E c ≠ []) ∧
    (∀ urls : List String, (sitemapProcess F E urls).2 = urls) := by
  constructor
  · intro l
    induction l with
    | nil => intro u hu; simp [crawlLoop] at hu
    | cons p rest ih =>
      obtain ⟨pu, pcat⟩ := p
      intro u hu
      unfold crawlLoop at hu
      cases hF : F pu with
      | none =>
        rw [hF] at hu
        exact ih u hu
      | some c =>
        rw [hF] at hu
        dsimp only at hu
        by_cases hc : c = ""
        · rw [if_neg (by simpa using hc)] at hu
          exact ih u hu
        · rw [if_pos hc] at hu
          by_cases he : E c = []
          · rw [if_neg (by simpa using he)] at hu
            exact ih u hu
          · rw [if_pos he] at hu
            simp only [List.mem_singleton] at hu
            subst hu
            exact ⟨c, hF, hc, he⟩
  · intro urls
    induction urls with
    | nil => rfl
    | cons u rest ih =>
      rw [show (sitemapProcess F E (u :: rest)).2
            = u :: (sitemapProcess F E rest).2 from rfl, ih]

/-- Witness for `C3_pages_accessed` at concrete oracles: the first
candidate of `testUrls "a.fr"` succeeds and its page is in the crawl
loop's `pages`, so the theorem yields its fetch evidence; the sitemap
part is applied to a one-URL list. -/
theorem C3_pages_accessed_witness :
    (∃ c, (fun u => if u = "https://a.fr/contact" then some "page" else none)
            "https://a.fr/contact" = some c ∧ c ≠ "" ∧
          (fun _ : String => ["contact@a.fr"]) c ≠ []) ∧
    (sitemapProcess (fun u => if u = "https://a.fr/contact" then some "page" else none)
        (fun _ => ["contact@a.fr"]) ["https://p.fr/x"]).2 = ["https://p.fr/x"] :=
  ⟨(C3_pages_accessed
      (fun u => if u = "https://a.fr/contact" then some "page" else none)
      (fun _ => ["contact@a.fr"])).1 (testUrls "a.fr") "https://a.fr/contact"
      (by decide),
   (C3_pages_accessed
      (fun u => if u = "https://a.fr/contact" then some "page" else none)
      (fun _ => ["contact@a.fr"])).2 ["https://p.fr/x"]⟩

/-! ## C4 — early exit -/

/-- Helper for C4: when the `k`-th candidate is the first to succeed,
the crawl loop performs exactly `k + 1` fetches and ends with a
non-empty email list. -/
theorem crawlLoop_first_success (F : String → Option String)
    (E : String → List String) (l : List (String × String)) :
    ∀ (k : Nat) (p : String × String), l.get? k = some p →
      (∀ j q, j < k → l.get? j = some q → ¬ urlSucceeds F E q.1) →
      urlSucceeds F E p.1 →
      (crawlLoop F E l).fetches = k + 1 ∧ (crawlLoop F E l).emails ≠ [] := by
  induction l with
  | nil => intro k p h; simp at h
  | cons hd rest ih =>
    obtain ⟨u, cat⟩ := hd
    intro k p hget hbef hs
    cases k with
    | zero =>
      simp only [List.get?_cons_zero, Option.some.injEq] at hget
      subst hget
      obtain ⟨c, hF, hc, he⟩ := hs
      unfold crawlLoop
      rw [hF]
      dsimp only
      rw [if_pos hc, if_pos he]
      exact ⟨rfl, he⟩
    | succ k' =>
      have hfail : ¬ urlSucceeds F E u :=
        hbef 0 (u, cat) (Nat.succ_pos _) rfl
      have hrest := ih k' p (by simpa using hget)
        (fun j q hj hq => hbef (j + 1) q (by omega) (by simpa using hq)) hs
      unfold crawlLoop
      cases hF : F u with
      | none =>
        refine ⟨?_, ?_⟩
        · show (crawlLoop F E rest).fetches + 1 = k' + 1 + 1
          rw [hrest.1]
        · show (crawlLoop F E rest).emails ≠ []
          exact hrest.2
      | some c =>
        dsimp only
        by_cases hc : c = ""
        · rw [if_neg (by simpa using hc)]
          refine ⟨?_, ?_⟩
          · show (crawlLoop F E rest).fetches + 1 = k' + 1 + 1
            rw [hrest.1]
          · show (crawlLoop F E rest).emails ≠ []
            exact hrest.2
        · rw [if_pos hc]
          by_cases he : E c = []
          · rw [if_neg (by simpa using he)]
            refine ⟨?_, ?_⟩
            · show (crawlLoop F E rest).fetches + 1 = k' + 1 + 1
              rw [hrest.1]
            · show (crawlLoop F E rest).emails ≠ []
              exact hrest.2
          · exact absurd ⟨c, hF, hc, he⟩ hfail

/-- C4: during the sequential per-domain crawl, once the `k`-th candidate
URL yields at least one validated email (and no earlier candidate did),
exactly `k + 1` fetches are performed — no candidate after the `k`-th is
fetched — and the sitemap fallback is not triggered. -/
theorem C4_early_exit (F : String → Option String) (E : String → List String)
    (P : String → List String) (domain : String) (hdom : domain ≠ "")
    (k : Nat) (p : String × String)
    (hget : (testUrls domain).get? k = some p)
    (hbef : ∀ j q, j < k → (testUrls domain).get? j = some q →
      ¬ urlSucceeds F E q.1)
    (hs : urlSucceeds F E p.1) :
    (discoverForDomain F E P domain).fetches = k + 1 ∧
      (discoverForDomain F E P domain).sitemapUsed = false := by
  have h := crawlLoop_first_success F E (testUrls domain) k p hget hbef hs
  unfold discoverForDomain
  rw [if_neg hdom]
  dsimp only
  rw [if_neg h.2]
  exact ⟨h.1, rfl⟩

/-- Witness for `C4_early_exit`: with a fetch oracle succeeding on the
first candidate of `a.fr`, discovery performs exactly one fetch and skips
the sitemap fallback. -/
theorem C4_early_exit_witness :
    (testUrls "a.fr").get? 0 = some ("https://a.fr/contact", "contact_high") ∧
    (discoverForDomain (fun u => if u = "https://a.fr/contact" then some "page" else none)
        (fun c => if c = "page" then ["contact@a.fr"] else [])
        (fun _ => []) "a.fr").fetches = 0 + 1 ∧
    (discoverForDomain (fun u => if u = "https://a.fr/contact" then some "page" else none)
        (fun c => if c = "page" then ["contact@a.fr"] else [])
        (fun _ => []) "a.fr").sitemapUsed = false := by
  have h := C4_early_exit
    (fun u => if u = "https://a.fr/contact" then some "page" else none)
    (fun c => if c = "page" then ["contact@a.fr"] else [])
    (fun _ => []) "a.fr" (by decide) 0
    ("https://a.fr/contact", "contact_high") (by decide)
    (fun j q hj _ => absurd hj (by omega))
    ⟨"page", by decide, by decide, by decide⟩
  exact ⟨by decide, h.1, h.2⟩

/-! ## C5 — URL prioritisation -/

/-- Indices in `enumFrom` are strictly increasing. -/
theorem enumFrom_pairwise_lt (l : List String) :
    ∀ n : Nat, (List.enumFrom n l).Pairwise (fun a b => a.1 < b.1) := by
  induction l with
  | nil => intro n; simp
  | cons x t ih =>
    intro n
    refine List.Pairwise.cons ?_ (ih (n + 1))
    rintro ⟨i, a⟩ hp
    have := (List.mk_mem_enumFrom_iff_le_and_getElem?_sub.mp hp).1
    dsimp only
    omega

/-- The scored entries carry pairwise-distinct input positions. -/
theorem mkEntries_idx_ne (urls : List String) :
    (mkEntries urls).Pairwise (fun a b => a.idx ≠ b.idx) := by
  unfold mkEntries
  rw [List.pairwise_map]
  refine (enumFrom_pairwise_lt urls 0).imp ?_
  intro a b h
  dsimp only
  omega

/-- The selection loop returns a sublist of its input. -/
theorem selectLoop_sublist :
    ∀ (l : List Entry) (c : Counts) (t : Nat),
      List.Sublist (selectLoop l c t) l := by
  intro l
  induction l with
  | nil => intro c t; simp [selectLoop]
  | cons e rest ih =>
    intro c t
    unfold selectLoop
    split
    · split
      · exact (List.nil_sublist rest).cons₂ e
      · exact (ih _ _).cons₂ e
    · split
      · exact List.nil_sublist _
      · exact (ih c t).cons e

/-- The selection loop never exceeds the 8-URL cap. -/
theorem selectLoop_length :
    ∀ (l : List Entry) (c : Counts) (t : Nat), t < 8 →
      (selectLoop l c t).length ≤ 8 - t := by
  intro l
  induction l with
  | nil => intro c t ht; simp [selectLoop]
  | cons e rest ih =>
    intro c t ht
    unfold selectLoop
    split
    · split
      · rename_i h8
        simp only [List.length_singleton]
        omega
      · rename_i h8
        have := ih (c.bump e.cat) (t + 1) (by omega)
        simp only [List.length_cons]
        omega
    · split
      · simp
      · exact ih c t ht

/-- C5: `get_priority_urls` scores every URL exactly as the
specification's formula (`scoreSpec`, +10/+5/+2 keyword cascade, +1
short-URL bonus, −2 long-query penalty); the selected entries are in
strictly descending score order with ties broken by original discovery
order; each selected entry carries the score of its URL at its original
input position; and at most 8 URLs are returned. -/
theorem C5_priority_scoring (urls : List String) :
    (∀ u, scoreOf u = scoreSpec u) ∧
    (get_priority_urls urls).length ≤ 8 ∧
    get_priority_urls urls = (selectedEntries urls).map Entry.url ∧
    List.Pairwise (fun a b : Entry =>
      b.score < a.score ∨ (a.score = b.score ∧ a.idx < b.idx))
      (selectedEntries urls) ∧
    (∀ e ∈ selectedEntries urls, urls[e.idx]? = some e.url ∧
      e.score = scoreSpec e.url ∧ e.cat = (categoryScore e.url).2) := by
  have hscore : ∀ u, scoreOf u = scoreSpec u := by
    intro u
    unfold scoreOf scoreSpec categoryScore shortBonus queryPenalty
    dsimp only
    split_ifs <;> rfl
  have hmem : ∀ e ∈ selectedEntries urls, e ∈ mkEntries urls := by
    intro e he
    have h1 : e ∈ sortedEntries urls :=
      (selectLoop_sublist _ _ _).subset he
    exact (List.mem_insertionSort entOrd).mp h1
  refine ⟨hscore, ?_, ?_, ?_, ?_⟩
  · unfold get_priority_urls
    split
    · simp
    · rw [List.length_map]
      have := selectLoop_length (sortedEntries urls) ⟨0, 0, 0, 0⟩ 0 (by omega)
      unfold selectedEntries
      omega
  · unfold get_priority_urls
    split
    · rename_i hemp
      rw [List.isEmpty_iff] at hemp
      subst hemp
      rfl
    · rfl
  · have hsorted : List.Pairwise entOrd (sortedEntries urls) :=
      List.sorted_insertionSort entOrd (mkEntries urls)
    have hne : List.Pairwise (fun a b : Entry => a.idx ≠ b.idx)
        (sortedEntries urls) :=
      ((List.perm_insertionSort entOrd (mkEntries urls)).pairwise_iff
        (fun h => h.symm)).mpr (mkEntries_idx_ne urls)
    have hboth := hsorted.and hne
    have hstrict : List.Pairwise (fun a b : Entry =>
        b.score < a.score ∨ (a.score = b.score ∧ a.idx < b.idx))
        (sortedEntries urls) := by
      refine hboth.imp ?_
      rintro a b ⟨hord, hne2⟩
      rcases hord with h | ⟨heq, hle⟩
      · exact Or.inl h
      · exact Or.inr ⟨heq, by omega⟩
    exact hstrict.sublist (selectLoop_sublist _ _ _)
  · intro e he
    have h2 := hmem e he
    unfold mkEntries at h2
    rw [List.mem_map] at h2
    obtain ⟨⟨i, u⟩, hpm, rfl⟩ := h2
    have := List.mem_enum_iff_getElem?.mp hpm
    exact ⟨this, hscore u, rfl⟩

/-- Witness for `C5_priority_scoring` at a concrete input list. -/
theorem C5_priority_scoring_witness :
    (⟨0, "https://a.fr/contact", 11, Cat.high⟩ : Entry) ∈
      selectedEntries ["https://a.fr/contact", "https://a.fr/x"] ∧
    ["https://a.fr/contact",
      "https://a.fr/x"][(⟨0, "https://a.fr/contact", 11, Cat.high⟩ : Entry).idx]?
      = some "https://a.fr/contact" ∧
    (⟨0, "https://a.fr/contact", 11, Cat.high⟩ : Entry).score
      = scoreSpec "https://a.fr/contact" ∧
    (get_priority_urls ["https://a.fr/contact", "https://a.fr/x"]).length ≤ 8 := by
  have hm : (⟨0, "https://a.fr/contact", 11, Cat.high⟩ : Entry) ∈
      selectedEntries ["https://a.fr/contact", "https://a.fr/x"] := by decide
  have h := (C5_priority_scoring
    ["https://a.fr/contact", "https://a.fr/x"]).2.2.2.2 _ hm
  exact ⟨hm, h.1, h.2.1,
    (C5_priority_scoring ["https://a.fr/contact", "https://a.fr/x"]).2.1⟩

/-! ## C7 — checkpoint round-trip -/

theorem splitC_ne_nil (c : Char) (s : Str) : splitC c s ≠ [] := by
  cases s with
  | nil => simp [splitC]
  | cons x xs =>
    unfold splitC
    dsimp only
    split
    · simp
    · split
      · simp
      · simp

theorem splitC_no_sep (c : Char) :
    ∀ s : Str, c ∉ s → splitC c s = [s] := by
  intro s
  induction s with
  | nil => intro _; rfl
  | cons x xs ih =>
    intro hnc
    have hx : ¬ x = c := fun h => hnc (h ▸ List.mem_cons_self x xs)
    have hxs : c ∉ xs := fun h => hnc (List.mem_cons_of_mem _ h)
    unfold splitC
    dsimp only
    rw [if_neg hx, ih hxs]

theorem splitC_append (c : Char) :
    ∀ a b : Str, c ∉ a → splitC c (a ++ c :: b) = a :: splitC c b := by
  intro a
  induction a with
  | nil =>
    intro b _
    show splitC c (c :: b) = [] :: splitC c b
    simp only [splitC]
    rw [if_pos trivial]
  | cons x xs ih =>
    intro b hnc
    have hx : ¬ x = c := fun h => hnc (h ▸ List.mem_cons_self x xs)
    have hxs : c ∉ xs := fun h => hnc (List.mem_cons_of_mem _ h)
    show splitC c (x :: (xs ++ c :: b)) = (x :: xs) :: splitC c b
    simp only [splitC]
    rw [if_neg hx, ih b hxs]

theorem pyStrip_cons_space (h : Str) : pyStrip (' ' :: h) = pyStrip h := rfl

theorem joinComma_ne_nil (e : Str) (rest : List Str) (he : e ≠ []) :
    joinComma (e :: rest) ≠ [] := by
  cases rest with
  | nil => exact he
  | cons e2 r2 =>
    show e ++ ',' :: ' ' :: joinComma (e2 :: r2) ≠ []
    simp

theorem countEmails_join :
    ∀ es : List Str, es ≠ [] →
      (∀ e ∈ es, e ≠ [] ∧ ',' ∉ e ∧ pyStrip e = e) →
      countEmailsField (joinComma es) = es.length := by
  intro es
  induction es with
  | nil => intro h; exact absurd rfl h
  | cons e tail ih =>
    intro _ hwf
    obtain ⟨hene, henc, hest⟩ := hwf e (List.mem_cons_self e tail)
    have hPe : (!(pyStrip e).isEmpty) = true := by
      rw [hest]
      obtain ⟨a, as, rfl⟩ := List.exists_cons_of_ne_nil hene
      rfl
    cases tail with
    | nil =>
      unfold countEmailsField joinComma
      rw [splitC_no_sep ',' e henc]
      simp [List.filter_cons, hPe]
    | cons e2 rest =>
      have hjoin : joinComma (e :: e2 :: rest)
          = e ++ ',' :: ' ' :: joinComma (e2 :: rest) := rfl
      obtain ⟨h1, t1, hsp⟩ : ∃ h1 t1,
          splitC ',' (joinComma (e2 :: rest)) = h1 :: t1 := by
        cases hx : splitC ',' (joinComma (e2 :: rest)) with
        | nil => exact absurd hx (splitC_ne_nil _ _)
        | cons a b => exact ⟨a, b, rfl⟩
      have hsp2 : splitC ',' (' ' :: joinComma (e2 :: rest)) = (' ' :: h1) :: t1 := by
        unfold splitC
        dsimp only
        rw [if_neg (by decide), hsp]
      have hih := ih (by simp) (fun x hx => hwf x (List.mem_cons_of_mem _ hx))
      unfold countEmailsField at hih ⊢
      rw [hsp] at hih
      rw [hjoin, splitC_append ',' e _ henc, hsp2]
      simp only [List.filter_cons, pyStrip_cons_space] at hih ⊢
      rw [if_pos hPe]
      by_cases hc : (!(pyStrip h1).isEmpty) = true
      · rw [if_pos hc] at hih ⊢
        simp only [List.length_cons] at hih ⊢
        omega
      · rw [if_neg hc] at hih ⊢
        simp only [List.length_cons] at hih ⊢
        omega

theorem loadRows (rows : List SavedRow) :
    ∀ acc : Finset Str × Nat, (∀ row ∈ rows, row.name ≠ []) →
      (rows.foldl loadStep acc).1 = acc.1 ∪ (rows.map SavedRow.name).toFinset ∧
      (rows.foldl loadStep acc).2 = acc.2 + (rows.map rowCount).sum := by
  induction rows with
  | nil => intro acc _; simp
  | cons row rest ih =>
    intro acc hn
    have hrow := hn row (List.mem_cons_self row rest)
    have hstep : loadStep acc row = (insert row.name acc.1, acc.2 + rowCount row) := by
      unfold loadStep
      rw [if_pos hrow]
    rw [List.foldl_cons, hstep]
    have h2 := ih (insert row.name acc.1, acc.2 + rowCount row)
      (fun r hr => hn r (List.mem_cons_of_mem _ hr))
    refine ⟨?_, ?_⟩
    · rw [h2.1]
      simp [Finset.insert_union, List.toFinset_cons]
    · rw [h2.2]
      simp only [List.map_cons, List.sum_cons]
      omega

/-- C7 (counterexample): the claim fails for a saved result whose name
is the empty string (for instance a company record with no name field):
the loading merge loop skips rows with an empty `name`, so the loaded
processed-name set has 0 names and 0 emails instead of the claimed 1 and
1.  (The save fires here because `total_processed` is a multiple of
500.) -/
theorem C7_empty_name_cex :
    saveProgressCsv [⟨[], ["a@b.fr".toList]⟩] 500
      = some [⟨[], "a@b.fr".toList⟩] ∧
    loadProgress [[⟨[], "a@b.fr".toList⟩]] = (∅, 0) := ⟨rfl, rfl⟩

/-- C7 (amended): when the buffering guard lets the write happen (at
least 500 results, or a total-processed counter that is a multiple of
500), and every saved result has a non-empty name and well-formed emails
(non-empty, comma-free, whitespace-trimmed — as validated emails are),
saving then loading yields exactly the set of the N distinct names and a
summed email count equal to the sum of the email-list lengths. -/
theorem C7_checkpoint_roundtrip (results : List ResultRec) (total : Nat)
    (hguard : 500 ≤ results.length ∨ total % 500 = 0)
    (hnames : ∀ r ∈ results, r.name ≠ [])
    (hnodup : (results.map ResultRec.name).Nodup)
    (hemails : ∀ r ∈ results, ∀ e ∈ r.emails,
      e ≠ [] ∧ ',' ∉ e ∧ pyStrip e = e) :
    ∃ file, saveProgressCsv results total = some file ∧
      (loadProgress [file]).1 = (results.map ResultRec.name).toFinset ∧
      (loadProgress [file]).1.card = results.length ∧
      (loadProgress [file]).2 = (results.map fun r => r.emails.length).sum := by
  have hsave : saveProgressCsv results total
      = some (results.map fun r => ⟨r.name, joinComma r.emails⟩) := by
    unfold saveProgressCsv
    rw [if_neg (by omega)]
  refine ⟨_, hsave, ?_, ?_, ?_⟩
  all_goals
    have hrows : ∀ row ∈ results.map
        (fun r => (⟨r.name, joinComma r.emails⟩ : SavedRow)), row.name ≠ [] := by
      intro row hrow
      rw [List.mem_map] at hrow
      obtain ⟨r, hr, rfl⟩ := hrow
      exact hnames r hr
  all_goals
    have hload := loadRows
      (results.map fun r => ⟨r.name, joinComma r.emails⟩) (∅, 0) hrows
  · show (List.foldl loadStep (∅, 0)
      (results.map fun r => ⟨r.name, joinComma r.emails⟩)).1 = _
    rw [hload.1, List.map_map, Finset.empty_union,
      show (SavedRow.name ∘ fun r : ResultRec =>
        (⟨r.name, joinComma r.emails⟩ : SavedRow)) = ResultRec.name from rfl]
  · show (List.foldl loadStep (∅, 0)
      (results.map fun r => ⟨r.name, joinComma r.emails⟩)).1.card = _
    rw [hload.1, List.map_map, Finset.empty_union,
      show (SavedRow.name ∘ fun r : ResultRec =>
        (⟨r.name, joinComma r.emails⟩ : SavedRow)) = ResultRec.name from rfl]
    rw [List.toFinset_card_of_nodup hnodup, List.length_map]
  · show (List.foldl loadStep (∅, 0)
      (results.map fun r => ⟨r.name, joinComma r.emails⟩)).2 = _
    rw [hload.2, List.map_map]
    have hcong : ∀ r ∈ results,
        (rowCount ∘ fun r : ResultRec => (⟨r.name, joinComma r.emails⟩ : SavedRow)) r
          = r.emails.length := by
      intro r hr
      show rowCount ⟨r.name, joinComma r.emails⟩ = r.emails.length
      unfold rowCount
      cases hre : r.emails with
      | nil => simp [joinComma]
      | cons e rest =>
        have hene : e ≠ [] := (hemails r hr e (hre ▸ List.mem_cons_self e rest)).1
        rw [if_pos (by
          show joinComma (e :: rest) ≠ []
          exact joinComma_ne_nil e rest hene)]
        exact countEmails_join (e :: rest) (by simp)
          (fun x hx => hemails r hr x (hre ▸ hx))
    rw [List.map_congr_left hcong]
    simp

/-- Witness for `C7_checkpoint_roundtrip` at one concrete result. -/
theorem C7_checkpoint_roundtrip_witness :
    ∃ file, saveProgressCsv [⟨"acme".toList, ["contact@acme.fr".toList]⟩] 500
        = some file ∧
      (loadProgress [file]).1
        = (([⟨"acme".toList, ["contact@acme.fr".toList]⟩] :
            List ResultRec).map ResultRec.name).toFinset ∧
      (loadProgress [file]).1.card
        = ([⟨"acme".toList, ["contact@acme.fr".toList]⟩] : List ResultRec).length ∧
      (loadProgress [file]).2
        = (([⟨"acme".toList, ["contact@acme.fr".toList]⟩] :
            List ResultRec).map fun r => r.emails.length).sum :=
  C7_checkpoint_roundtrip [⟨"acme".toList, ["contact@acme.fr".toList]⟩] 500
    (Or.inr (by decide)) (by decide) (by decide) (by decide)

/-! ## C8 — fetch error tagging -/

/-- When no redirect is followed, `attemptStep` ignores its redirect
handler. -/
theorem attemptStep_noredir (url : String) (o : AttemptOutcome)
    (hn : followedRedirect url o = none)
    (r r' : String → Option String × List String) :
    attemptStep url o r = attemptStep url o r' := by
  cases o with
  | resp status lenHdr content ctype loc oversize =>
    unfold attemptStep
    rw [hn]
  | sslErr fb => rfl
  | timeoutE => rfl
  | connE => rfl
  | reqE n => rfl
  | otherE n => rfl

/-- When no redirect is followable, an attempt never takes the
redirect-return branch. -/
theorem attemptStep_no_redirect {url : String} {o : AttemptOutcome}
    (hn : followedRedirect url o = none)
    (r : String → Option String × List String) :
    ∀ res, attemptStep url o r ≠ .redirected res := by
  intro res h
  cases o with
  | resp status lenHdr content ctype loc oversize =>
    unfold attemptStep at h
    dsimp only at h
    rw [hn] at h
    dsimp only at h
    split at h
    · exact StepRes.noConfusion h
    · split at h
      · split at h
        · exact StepRes.noConfusion h
        · exact StepRes.noConfusion h
      · split at h
        · exact StepRes.noConfusion h
        · exact StepRes.noConfusion h
  | sslErr fb =>
    unfold attemptStep at h
    dsimp only at h
    split at h
    · split at h
      · exact StepRes.noConfusion h
      · exact StepRes.noConfusion h
    · exact StepRes.noConfusion h
  | timeoutE => exact StepRes.noConfusion h
  | connE => exact StepRes.noConfusion h
  | reqE n => exact StepRes.noConfusion h
  | otherE n => exact StepRes.noConfusion h

/-- The retry loop only ever appends to its error list (given that no
redirect is followed, which would discard it). -/
theorem fetchAttempts_mono (O : String → Nat → AttemptOutcome) (url : String)
    (redir : String → Option String × List String)
    (hnr : ∀ i, followedRedirect url (O url i) = none) :
    ∀ (remaining attempt : Nat) (errors : List String) (t : String),
      t ∈ errors → t ∈ (fetchAttempts O url redir remaining attempt errors).2 := by
  intro remaining
  induction remaining with
  | zero => intro attempt errors t ht; exact ht
  | succ rem ih =>
    intro attempt errors t ht
    unfold fetchAttempts
    cases hstep : attemptStep url (O url attempt) redir with
    | retval c tags => exact List.mem_append.mpr (Or.inl ht)
    | redirected res =>
      exact absurd hstep (by
        intro hcon
        exact attemptStep_no_redirect (hnr attempt) redir res hcon)
    | next tags => exact ih (attempt + 1) (errors ++ tags) t (List.mem_append.mpr (Or.inl ht))

/-- Every executed attempt's tags survive into the returned error
list, absent followed redirects. -/
theorem fetchAttempts_tags (O : String → Nat → AttemptOutcome) (url : String)
    (redir : String → Option String × List String)
    (hnr : ∀ i, followedRedirect url (O url i) = none) :
    ∀ (remaining attempt : Nat) (errors : List String) (i : Nat),
      attempt ≤ i → i < attempt + remaining →
      (∀ j, attempt ≤ j → j < i → stepAdvances url (O url j) = true) →
      ∀ t ∈ attemptTags url (O url i),
        t ∈ (fetchAttempts O url redir remaining attempt errors).2 := by
  intro remaining
  induction remaining with
  | zero => intro attempt errors i h1 h2; omega
  | succ rem ih =>
    intro attempt errors i h1 h2 hexec t ht
    unfold fetchAttempts
    by_cases hi : i = attempt
    · subst hi
      cases hstep : attemptStep url (O url i) redir with
      | retval c tags =>
        have htags : attemptTags url (O url i) = tags := by
          unfold attemptTags
          rw [attemptStep_noredir url _ (hnr i) (fun _ => (none, [])) redir, hstep]
        rw [htags] at ht
        exact List.mem_append.mpr (Or.inr ht)
      | redirected res =>
        exact absurd hstep (by
          intro hcon
          exact attemptStep_no_redirect (hnr i) redir res hcon)
      | next tags =>
        have htags : attemptTags url (O url i) = tags := by
          unfold attemptTags
          rw [attemptStep_noredir url _ (hnr i) (fun _ => (none, [])) redir, hstep]
        rw [htags] at ht
        exact fetchAttempts_mono O url redir hnr rem (i + 1) (errors ++ tags) t
          (List.mem_append.mpr (Or.inr ht))
    · have hadv : stepAdvances url (O url attempt) = true :=
        hexec attempt le_rfl (by omega)
      cases hstep : attemptStep url (O url attempt) redir with
      | retval c tags =>
        exfalso
        unfold stepAdvances at hadv
        rw [attemptStep_noredir url _ (hnr attempt) (fun _ => (none, [])) redir,
          hstep] at hadv
        exact Bool.noConfusion hadv
      | redirected res =>
        exact absurd hstep (by
          intro hcon
          exact attemptStep_no_redirect (hnr attempt) redir res hcon)
      | next tags =>
        exact ih (attempt + 1) (errors ++ tags) i (by omega) (by omega)
          (fun j hj1 hj2 => hexec j (by omega) hj2) t ht

/-- C8 (amended): the embedding of `fetch_website_content` is a total
function — every exception branch of the source is caught, so ordinary
network failures never raise — and, provided no attempt follows a
redirect (a followed redirect returns the recursive call's result and
discards the tags accumulated so far), every failure tag of every
executed attempt appears in the returned errors list.  Unfollowed
redirects (3xx with a missing or identical Location) and 200 responses
with a rejected content type contribute no tag. -/
theorem C8_fetch_error_tags (O : String → Nat → AttemptOutcome) (url : String)
    (maxRetries fuel : Nat)
    (hnr : ∀ i, followedRedirect url (O url i) = none)
    (i : Nat) (hi : i ≤ maxRetries)
    (hexec : ∀ j, j < i → stepAdvances url (O url j) = true) :
    ∀ t ∈ attemptTags url (O url i),
      t ∈ (fetchFuel O (fuel + 1) url maxRetries).2 := by
  intro t ht
  unfold fetchFuel
  exact fetchAttempts_tags O url _ hnr (maxRetries + 1) 0 [] i (by omega) (by omega)
    (fun j _ hj => hexec j hj) t ht

/-- C8 (counterexample): the claim "every distinguishable failure mode
is recorded as an ErrorTag in the errors list" is false: a 301 response
with no `Location` header is a failure (the fetch returns no content),
yet the source appends no tag for it — the returned error list is
empty after three such attempts. -/
theorem C8_untagged_redirect_cex :
    fetchFuel (fun _ _ => .resp 301 none "" "" none false) 10 "https://x.fr" 2
      = (none, []) := rfl

/-- Witness for `C8_fetch_error_tags`: an all-timeouts oracle yields a
`timeout` tag in the returned error list. -/
theorem C8_fetch_error_tags_witness :
    "timeout" ∈ (fetchFuel (fun _ _ => .timeoutE) 5 "https://a.fr" 1).2 := by
  have h := C8_fetch_error_tags (fun _ _ => .timeoutE) "https://a.fr" 1 4
    (fun i => rfl) 0 (by omega) (fun j hj => absurd hj (by omega))
  exact h "timeout" (by decide)

/-! ## C10 — totality of `clean_url` -/

/-- C10: `clean_url` is total — `None` and non-string inputs, as well as
the empty string, map to `None` (its Lean embedding is a total function,
mirroring that every exception path in the source is caught); every input
shorter than 4 characters yields `None`; and whenever a domain is
returned it is not a social-media host, has at most 3 dots, is not a bare
IPv4 address, matches the domain-syntax pattern and is at most 253
characters — equivalently, inputs normalising to such hosts yield
`None`. -/
theorem C10_clean_url_total :
    clean_url .pynone = none ∧ clean_url .other = none ∧
    (∀ s : String, s.toList.length < 4 → clean_url (.str s) = none) ∧
    (∀ (v : PyVal) (dm : Str), clean_url v = some dm →
      socialMediaDomains.contains dm = false ∧
      dm.count '.' ≤ 3 ∧
      ipv4Shape dm = false ∧
      domainValidB dm = true ∧
      dm.length ≤ 253) := by
  refine ⟨rfl, rfl, ?_, ?_⟩
  · intro s hs
    have hlt : (pyStrip s.toList).length < 4 :=
      lt_of_le_of_lt (pyStripLen _) hs
    unfold clean_url
    dsimp only
    by_cases h0 : s.toList.isEmpty
    · rw [if_pos h0]
    · rw [if_neg h0, if_pos (by
        simp only [Bool.or_eq_true, decide_eq_true_eq]
        exact Or.inr hlt)]
  · intro v dm h
    cases v with
    | pynone => exact absurd h (by simp [clean_url])
    | other => exact absurd h (by simp [clean_url])
    | str s =>
      unfold clean_url at h
      dsimp only at h
      split at h
      · exact absurd h (by simp)
      · split at h
        · exact absurd h (by simp)
        · unfold cleanUrlTail at h
          split at h
          · exact absurd h (by simp)
          · split at h
            · exact absurd h (by simp)
            · obtain ⟨rfl, h2⟩ := finalChecks_post h
              exact h2

/-- Witness for `C10_clean_url_total` at concrete inputs: `"ab"` is too
short; `https://www.acme.fr/x` normalises to `acme.fr`, which satisfies
every returned-domain property. -/
theorem C10_clean_url_total_witness :
    ("ab" : String).toList.length < 4 ∧
    clean_url (.str "ab") = none ∧
    clean_url (.str "https://www.acme.fr/x") = some ("acme.fr".toList) ∧
    socialMediaDomains.contains ("acme.fr".toList) = false ∧
    ("acme.fr".toList).count '.' ≤ 3 ∧
    ipv4Shape ("acme.fr".toList) = false ∧
    domainValidB ("acme.fr".toList) = true ∧
    ("acme.fr".toList).length ≤ 253 := by
  have h4 := C10_clean_url_total.2.2.2 (.str "https://www.acme.fr/x")
    ("acme.fr".toList) (by decide)
  exact ⟨by decide, C10_clean_url_total.2.2.1 "ab" (by decide), by decide,
    h4.1, h4.2.1, h4.2.2.1, h4.2.2.2.1, h4.2.2.2.2⟩

end Scraper







